import Mathlib

/-!
Verification development for the block-storage engine of the
bitcoinclassic repository (src/BlocksDB.cpp, src/BlocksDB_p.h).

The file store is modelled byte-exactly: a data file is a size plus a
byte-content function, the per-role mapping cache is a list of optional
mapped sizes (a `none` entry models an absent or invalidated
`DataFile` slot, a `some sz` entry models a live memory mapping of
`sz` bytes), and `writeBlock` / `loadBlock` are transcribed from
`Blocks::DBPrivate::writeBlock` / `Blocks::DBPrivate::loadBlock`.
Out-of-bounds vector accesses and writes past the mapped region, which
are undefined behaviour in the C++ source, are modelled as explicit
error results.  The header-chain machinery of `Blocks::DB::appendHeader`
is modelled over a store of block-index entries addressed by list
position (the C++ uses heap pointers).  Helpers that live in files not
shipped with the repository snapshot (chain.h, hash.h) are modelled
from the specification and marked as such.
-/

namespace Blocks

/-! Byte-level helpers -/

/-- Overwrite `bs.length` bytes of the byte-content function `f`,
starting at `start` (models `memcpy` into a mapped region). -/
def writeBytesF (f : Nat → Nat) (start : Nat) (bs : List Nat) : Nat → Nat :=
  fun i => if start ≤ i ∧ i < start + bs.length then bs.getD (i - start) 0 else f i

/-- Read `n` bytes from the byte-content function `f` starting at `start`. -/
def readBytesF (f : Nat → Nat) (start n : Nat) : List Nat :=
  (List.range n).map (fun i => f (start + i))

/-- Little-endian encoding of a 32-bit value into four bytes
(models `htole32` followed by a four-byte `memcpy`). -/
def le32enc (n : Nat) : List Nat :=
  [n % 256, n / 256 % 256, n / 65536 % 256, n / 16777216 % 256]

/-- Little-endian decoding of four bytes (models `le32toh` of the four
bytes that precede a block position). -/
def le32dec (bs : List Nat) : Nat :=
  bs.getD 0 0 + 256 * bs.getD 1 0 + 65536 * bs.getD 2 0 + 16777216 * bs.getD 3 0

/-- Pad or truncate a byte list to exactly 32 bytes; the undo checksum
written by the source is exactly 256 / 8 = 32 bytes. -/
def pad32 (bs : List Nat) : List Nat :=
  (bs ++ List.replicate 32 0).take 32

/-! Parameters and state of the file store -/

/-- Parameters of the store: the network magic (`Params().MessageStart()`),
the two role-specific chunk sizes (BLOCKFILE_CHUNK_SIZE and
UNDOFILE_CHUNK_SIZE), the maximal block-file size (MAX_BLOCKFILE_SIZE)
and the checksum hash.  `chk` models the double hash computed by
`CHashWriter` over (block hash ∥ payload); hash.h is not part of the
repository snapshot, so the hash itself is kept abstract. -/
structure DBParams where
  magic : List Nat
  blkChunk : Nat
  undoChunk : Nat
  maxFileSize : Nat
  chk : List Nat → List Nat → List Nat

/-- The four magic bytes actually written (the source copies exactly 4
bytes of the message start). -/
def magic4 (p : DBParams) : List Nat :=
  (p.magic ++ List.replicate 4 0).take 4

/-- The 32 checksum bytes actually written for an undo record. -/
def DBParams.chk32 (p : DBParams) (h payload : List Nat) : List Nat :=
  pad32 (p.chk h payload)

/-- Aggregate per-file metadata (CBlockFileInfo). -/
structure CBlockFileInfo where
  nBlocks : Nat := 0
  nSize : Nat := 0
  nUndoSize : Nat := 0
  nHeightFirst : Nat := 0
  nHeightLast : Nat := 0
  nTimeFirst : Nat := 0
  nTimeLast : Nat := 0
deriving DecidableEq

instance : Inhabited CBlockFileInfo := ⟨{}⟩

/-- Modelled from the spec: `CBlockFileInfo::AddBlock` lives in chain.h,
which is not part of the repository snapshot; per the spec it updates
the aggregate size, block-count, height and time ranges of a body file. -/
def CBlockFileInfo.AddBlock (info : CBlockFileInfo) (nHeightIn nTimeIn : Nat) :
    CBlockFileInfo :=
  { info with
    nHeightFirst := if info.nBlocks = 0 ∨ nHeightIn < info.nHeightFirst then nHeightIn
      else info.nHeightFirst
    nTimeFirst := if info.nBlocks = 0 ∨ nTimeIn < info.nTimeFirst then nTimeIn
      else info.nTimeFirst
    nBlocks := info.nBlocks + 1
    nHeightLast := max info.nHeightLast nHeightIn
    nTimeLast := max info.nTimeLast nTimeIn }

/-- One physical backing file: its current size on disk and its byte
content.  Growing a file with `resize_file` changes the size and leaves
the existing bytes alone. -/
structure DiskFile where
  size : Nat
  content : Nat → Nat

/-- State of Blocks::DBPrivate together with the globals it uses
(`nLastBlockFile`, `vinfoBlockFile`, `setDirtyFileInfo`) and the disk.
`blkCache` / `revCache` model the `datafiles` / `revertDatafiles`
vectors: entry `none` is an empty or invalidated slot, entry `some sz`
is a slot whose weak buffer is alive and maps `sz` bytes. -/
structure DBState where
  nLastBlockFile : Nat
  vinfoBlockFile : List CBlockFileInfo
  setDirtyFileInfo : List Nat
  blkDisk : Nat → Option DiskFile
  revDisk : Nat → Option DiskFile
  blkCache : List (Option Nat)
  revCache : List (Option Nat)

/-- Role-indexed view of the mapping caches (`useBlk = true` is the
forward-block role, `false` the undo role). -/
def DBState.cache (st : DBState) (useBlk : Bool) : List (Option Nat) :=
  if useBlk then st.blkCache else st.revCache

def DBState.setCache (st : DBState) (useBlk : Bool) (c : List (Option Nat)) : DBState :=
  if useBlk then { st with blkCache := c } else { st with revCache := c }

/-- Role-indexed view of the disk. -/
def DBState.disk (st : DBState) (useBlk : Bool) (f : Nat) : Option DiskFile :=
  if useBlk then st.blkDisk f else st.revDisk f

def DBState.setDisk (st : DBState) (useBlk : Bool) (f : Nat) (d : Option DiskFile) :
    DBState :=
  if useBlk then { st with blkDisk := fun i => if i = f then d else st.blkDisk i }
  else { st with revDisk := fun i => if i = f then d else st.revDisk i }

/-- The C++ `list.resize(fileIndex + 10)` performed by `mapFile` when the
vector of DataFile slots is too short. -/
def resizeCache (l : List (Option Nat)) (fileIndex : Nat) : List (Option Nat) :=
  if l.length ≤ fileIndex then l ++ List.replicate (fileIndex + 10 - l.length) none else l

/-- Blocks::DBPrivate::mapFile: return the cached mapping if the slot is
alive, otherwise open and map the file from disk (returning `none` when
the file cannot be opened) and cache the fresh mapping. -/
def DBPrivate.mapFile (st : DBState) (fileIndex : Nat) (useBlk : Bool) :
    Option Nat × DBState :=
  let c0 := resizeCache (st.cache useBlk) fileIndex
  match c0.getD fileIndex none with
  | some sz => (some sz, st.setCache useBlk c0)
  | none =>
    match st.disk useBlk fileIndex with
    | none => (none, st.setCache useBlk c0)
    | some d => (some d.size, st.setCache useBlk (c0.set fileIndex (some d.size)))

/-- Blocks::DBPrivate::fileHasGrown: invalidate the cached mapping for
one body-file index; a negative or too-large index is silently ignored. -/
def DBPrivate.fileHasGrown (st : DBState) (fileIndex : Int) : DBState :=
  if fileIndex < 0 ∨ (st.blkCache.length : Int) ≤ fileIndex then st
  else { st with blkCache := st.blkCache.set fileIndex.toNat none }

/-- Blocks::DBPrivate::revertFileHasGrown: same for undo files. -/
def DBPrivate.revertFileHasGrown (st : DBState) (fileIndex : Int) : DBState :=
  if fileIndex < 0 ∨ (st.revCache.length : Int) ≤ fileIndex then st
  else { st with revCache := st.revCache.set fileIndex.toNat none }

/-- The filesystem `resize_file` call: set the size, keep the bytes. -/
def resizeDisk (st : DBState) (useBlk : Bool) (f newSize : Nat) : DBState :=
  match st.disk useBlk f with
  | some d => st.setDisk useBlk f (some ⟨newSize, d.content⟩)
  | none => st.setDisk useBlk f (some ⟨newSize, fun _ => 0⟩)

/-- The grow-and-remap cycle performed inside `writeBlock` when a record
does not fit: `resize_file` by one role chunk, then the grow
notification, then a fresh `mapFile`. -/
def growCycle (p : DBParams) (st : DBState) (f : Nat) (useBlk : Bool) (fileSize : Nat) :
    Option Nat × DBState :=
  let st4 := resizeDisk st useBlk f (fileSize + (if useBlk then p.blkChunk else p.undoChunk))
  let st5 := if useBlk then DBPrivate.fileHasGrown st4 (Int.ofNat f)
    else DBPrivate.revertFileHasGrown st4 (Int.ofNat f)
  DBPrivate.mapFile st5 f useBlk

/-- The `vinfoBlockFile.resize` of the source. -/
def resizeInfos (l : List CBlockFileInfo) (n : Nat) : List CBlockFileInfo :=
  if n ≤ l.length then l.take n else l ++ List.replicate (n - l.length) default

/-- Insert into the `setDirtyFileInfo` std::set. -/
def setInsert (l : List Nat) (x : Nat) : List Nat :=
  if x ∈ l then l else x :: l

inductive WriteErr
  /-- mapFile returned a null buffer ("Failed to open file"). -/
  | mapFail
  /-- the C++ indexes `vinfoBlockFile[pos.nFile]` out of range (UB). -/
  | vinfoOOB
  /-- the C++ memcpy would run past the end of the mapped region (UB). -/
  | oobWrite
deriving DecidableEq

/-- Result of a successful write: the file index and payload position
returned through `CDiskBlockPos`, the returned buffer over the written
payload, and the new state. -/
structure WriteOut where
  posFile : Nat
  posPos : Nat
  view : List Nat
  st : DBState

/-- The framed record written for one payload: magic, little-endian
length, payload, and (undo role only) the 32-byte checksum. -/
def recordOf (p : DBParams) (payload : List Nat) (useBlk : Bool) (blockHash : List Nat) :
    List Nat :=
  magic4 p ++ le32enc payload.length ++ payload ++
    (if useBlk then [] else p.chk32 blockHash payload)

/-- The mapping-and-writing core of Blocks::DBPrivate::writeBlock: map
the target file, grow-and-remap by one role chunk when the record would
not fit the mapped size, and copy the framed record into the mapping at
the current append offset.  Returns the written state and the mapped
size used. -/
def DBPrivate.writeBlockCore (p : DBParams) (st2 : DBState) (posFile : Nat)
    (useBlk : Bool) (posInFile : Nat) (payload : List Nat) (blockHash : List Nat) :
    Except WriteErr (DBState × Nat) :=
  match DBPrivate.mapFile st2 posFile useBlk with
  | (none, _) => .error .mapFail
  | (some fileSize0, st3) =>
    match (if fileSize0 < posInFile + payload.length + 8 then
        growCycle p st3 posFile useBlk fileSize0
      else (some fileSize0, st3)) with
    | (none, _) => .error .mapFail
    | (some fileSize, st6) =>
      let record := recordOf p payload useBlk blockHash
      if fileSize < posInFile + record.length then .error .oobWrite else
      let d0 := (st6.disk useBlk posFile).getD ⟨fileSize, fun _ => 0⟩
      .ok (st6.setDisk useBlk posFile
        (some ⟨d0.size, writeBytesF d0.content posInFile record⟩), fileSize)

/-- The tail of Blocks::DBPrivate::writeBlock after the target file has
been chosen and created: run the mapping-and-writing core, update the
aggregate info and the dirty set, and return the payload position and a
view over the written payload. -/
def DBPrivate.writeFinish (p : DBParams) (st2 : DBState) (posFile : Nat) (useBlk : Bool)
    (posInFile : Nat) (info : CBlockFileInfo) (payload : List Nat)
    (blockHeight timestamp : Nat) (blockHash : List Nat) : Except WriteErr WriteOut :=
  match DBPrivate.writeBlockCore p st2 posFile useBlk posInFile payload blockHash with
  | .error e => .error e
  | .ok (st7, _) =>
    let content := ((st7.disk useBlk posFile).getD ⟨0, fun _ => 0⟩).content
    let info2 :=
      if useBlk then
        { (info.AddBlock blockHeight timestamp) with nSize := posInFile + payload.length + 8 }
      else { info with nUndoSize := posInFile + 32 + payload.length + 8 }
    let st8 := { st7 with
      vinfoBlockFile := st7.vinfoBlockFile.set posFile info2
      setDirtyFileInfo := setInsert st7.setDirtyFileInfo posFile }
    .ok ⟨posFile, posInFile + 8, readBytesF content (posInFile + 8) payload.length, st8⟩

/-- Blocks::DBPrivate::writeBlock, transcribed line by line: roll to a
new file when needed, create a fresh file for a new body file or a first
undo record, then run the mapping-and-writing tail. -/
def DBPrivate.writeBlock (p : DBParams) (st0 : DBState) (payload : List Nat)
    (posFileIn : Nat) (useBlk : Bool) (blockHeight timestamp : Nat)
    (blockHash : List Nat) : Except WriteErr WriteOut :=
  let blockSize := payload.length
  let roll :=
    if st0.vinfoBlockFile.length ≤ st0.nLastBlockFile then
      (true, st0.nLastBlockFile, resizeInfos st0.vinfoBlockFile (st0.nLastBlockFile + 1))
    else if useBlk = true ∧
        p.maxFileSize < (st0.vinfoBlockFile.getD st0.nLastBlockFile default).nSize + blockSize + 8 then
      (true, st0.nLastBlockFile + 1, resizeInfos st0.vinfoBlockFile (st0.nLastBlockFile + 2))
    else (false, st0.nLastBlockFile, st0.vinfoBlockFile)
  let newFile := roll.1
  let nLast := roll.2.1
  let vinfo := roll.2.2
  let posFile := if useBlk then nLast else posFileIn
  if vinfo.length ≤ posFile then .error .vinfoOOB else
  let info := vinfo.getD posFile default
  let chunk := if useBlk then p.blkChunk else p.undoChunk
  let st1 : DBState := { st0 with nLastBlockFile := nLast, vinfoBlockFile := vinfo }
  let st2 :=
    if newFile = true ∨ (useBlk = false ∧ info.nUndoSize = 0) then
      st1.setDisk useBlk posFile (some ⟨max blockSize chunk, fun _ => 0⟩)
    else st1
  let posInFile := if useBlk then info.nSize else info.nUndoSize
  DBPrivate.writeFinish p st2 posFile useBlk posInFile info payload blockHeight timestamp
    blockHash

inductive LoadErr
  /-- "Blocks::loadBlock got Database corruption" (position below 4). -/
  | posTooSmall
  /-- "Failed to memmap block": the file is missing or cannot be mapped. -/
  | mapFail
  /-- "position outside of file". -/
  | posPastEnd
  /-- "block sized bigger than file". -/
  | lenPastEnd
  /-- "BlocksDB::loadUndoBlock, checkum mismatch". -/
  | checksumMismatch
  /-- No error is thrown at all: `pos.nPos + blockSize + (blockHash ? 32 : 0)`
  is computed in 32-bit unsigned arithmetic, so for a stored length near
  2^32 the sum wraps below the mapped size, the "block sized bigger than
  file" check passes, and the subsequent reads of `blockSize` bytes run
  past the mapped region — undefined behaviour, modelled as this explicit
  outcome. -/
  | oobRead
deriving DecidableEq

/-- Classification of the load errors per the error taxonomy of the
specification: malformed framing, out-of-range offsets and checksum
mismatches are StorageCorruption, while a file that is missing or
cannot be mapped (pruned data) is a no-data outcome, not corruption.
The out-of-bounds read is no thrown error at all (the program reads
past the mapping instead of raising anything), so it is not a
StorageCorruption outcome either. -/
def isStorageCorruption : LoadErr → Bool
  | .posTooSmall => true
  | .mapFail => false
  | .posPastEnd => true
  | .lenPastEnd => true
  | .checksumMismatch => true
  | .oobRead => false

/-- Blocks::DBPrivate::loadBlock, transcribed line by line: reject a
position below 4, map the file, reject a position at or past the mapped
size, re-derive the length from the 4 bytes preceding the position,
reject a record running past the mapped size, verify the undo checksum,
and return exactly the payload bytes.  The record-length check
`pos.nPos + blockSize + (blockHash ? 32 : 0) > fileSize` adds an
`unsigned int`, a `uint32_t` and an `int`, so it is performed modulo
2^32; when the true sum exceeds the mapped size but the wrapped sum
does not, the throw is bypassed and the subsequent reads run past the
mapped region (undefined behaviour, the explicit `oobRead` outcome). -/
def DBPrivate.loadBlock (p : DBParams) (st : DBState) (posFile posPos : Nat)
    (useBlk : Bool) (blockHash : Option (List Nat)) :
    Except LoadErr (List Nat × DBState) :=
  if posPos < 4 then .error .posTooSmall else
  match DBPrivate.mapFile st posFile useBlk with
  | (none, _) => .error .mapFail
  | (some fileSize, st1) =>
    if fileSize ≤ posPos then .error .posPastEnd else
    let content := ((st1.disk useBlk posFile).getD ⟨0, fun _ => 0⟩).content
    let blockSize := le32dec (readBytesF content (posPos - 4) 4)
    let csLen : Nat := match blockHash with | some _ => 32 | none => 0
    if fileSize < (posPos + blockSize + csLen) % 4294967296 then .error .lenPastEnd else
    if fileSize < posPos + blockSize + csLen then .error .oobRead else
    let payload := readBytesF content posPos blockSize
    match blockHash with
    | some h =>
      if readBytesF content (posPos + blockSize) 32 = p.chk32 h payload then .ok (payload, st1)
      else .error .checksumMismatch
    | none => .ok (payload, st1)

/-- Blocks::DB::writeBlock: body role; the block must be a full block. -/
def DB.writeBlock (p : DBParams) (st : DBState) (blockHeight : Nat)
    (payload : List Nat) (timestamp : Nat) : Except WriteErr WriteOut :=
  DBPrivate.writeBlock p st payload 0 true blockHeight timestamp []

/-- Blocks::DB::writeUndoBlock: undo role, into the given file index,
checksummed under the parent block hash. -/
def DB.writeUndoBlock (p : DBParams) (st : DBState) (payload : List Nat)
    (blockHash : List Nat) (fileIndex : Nat) : Except WriteErr WriteOut :=
  DBPrivate.writeBlock p st payload fileIndex false 0 0 blockHash

/-- Blocks::DB::loadBlock. -/
def DB.loadBlock (p : DBParams) (st : DBState) (posFile posPos : Nat) :
    Except LoadErr (List Nat × DBState) :=
  DBPrivate.loadBlock p st posFile posPos true none

/-- Blocks::DB::loadUndoBlock. -/
def DB.loadUndoBlock (p : DBParams) (st : DBState) (posFile posPos : Nat)
    (origBlockHash : List Nat) : Except LoadErr (List Nat × DBState) :=
  DBPrivate.loadBlock p st posFile posPos false (some origBlockHash)

/-- Blocks::DB::loadBlockFile: map a whole body file; a missing or
unmappable file yields `none` (the "got pruned" empty buffer), never an
error. -/
def DB.loadBlockFile (st : DBState) (fileIndex : Nat) : Option Nat × DBState :=
  DBPrivate.mapFile st fileIndex true

/-! Coherence of a state: every live cached mapping describes a file
that exists on disk with exactly that size.  The source maintains this
by calling the grow notification under the same mutex as every resize. -/

def coherentRole (cache : List (Option Nat)) (disk : Nat → Option DiskFile) : Bool :=
  (List.range cache.length).all fun i =>
    match cache.getD i none with
    | none => true
    | some sz =>
      match disk i with
      | some d => d.size == sz
      | none => false

def Coherent (st : DBState) : Prop :=
  coherentRole st.blkCache st.blkDisk = true ∧ coherentRole st.revCache st.revDisk = true

/-! The reindexing flag (Blocks::DB::setIsReindexing / isReindexing).
The metadata store is external; the model records the flag value it
holds and the operations issued against it. -/

inductive StoreOp
  | writeReindexFlag
  | eraseReindexFlag
deriving DecidableEq

structure ReindexDB where
  isReindexing : Bool
  flagOnDisk : Bool
deriving DecidableEq

/-- Blocks::DB::setIsReindexing: when the in-memory flag already has the
requested value, return true at once; otherwise update the in-memory
flag and write or erase the persisted DB_REINDEX_FLAG record. -/
def DB.setIsReindexing (db : ReindexDB) (fReindexing : Bool) :
    Bool × ReindexDB × List StoreOp :=
  if db.isReindexing = fReindexing then (true, db, [])
  else if fReindexing then
    (true, { isReindexing := fReindexing, flagOnDisk := true }, [.writeReindexFlag])
  else (true, { isReindexing := fReindexing, flagOnDisk := false }, [.eraseReindexFlag])

/-- Blocks::DB::isReindexing reads the in-memory flag. -/
def DB.isReindexing (db : ReindexDB) : Bool := db.isReindexing

/-! The header chain.  CBlockIndex entries are stored in a list and
addressed by position; `pprev` is the position of the parent.  `failed`
models `nStatus & BLOCK_FAILED_MASK`. -/

structure BlockEntry where
  pprev : Option Nat
  nHeight : Nat
  nChainWork : Nat
  failed : Bool
deriving DecidableEq

instance : Inhabited BlockEntry := ⟨⟨none, 0, 0, false⟩⟩

abbrev Store := List BlockEntry

def entryAt (s : Store) (i : Nat) : BlockEntry := s.getD i default

/-- The parent walk of appendHeader: follow pprev while the height is
above `h` (fuel bounds the walk; with consistent heights a fuel of
height + 1 never runs out, matching the terminating C++ loop). -/
def walkDown (s : Store) : Nat → Nat → Nat → Option Nat
  | 0, _, _ => none
  | fuel + 1, i, h =>
    if h < (entryAt s i).nHeight then
      match (entryAt s i).pprev with
      | none => none
      | some pr => walkDown s fuel pr h
    else some i

/-- Modelled from the spec: `CBlockIndex::GetAncestor` lives in chain.cpp,
which is not part of the repository snapshot; per the spec it is the
O(log n) ancestor-at-height query, returning the ancestor whose height
is exactly the requested one, or nothing when the height is above the
entry. -/
def getAncestor (s : Store) (i h : Nat) : Option Nat :=
  if (entryAt s i).nHeight < h then none
  else match walkDown s ((entryAt s i).nHeight + 1) i h with
    | some a => if (entryAt s a).nHeight = h then some a else none
    | none => none

/-- Modelled from the spec: `CChain::SetTip` lives in chain.cpp, which is
not part of the repository snapshot; per the spec it re-indexes the
height-to-entry array as the path from genesis to the new tip. -/
def pathTo (s : Store) : Nat → Nat → List Nat
  | 0, i => [i]
  | fuel + 1, i =>
    match (entryAt s i).pprev with
    | none => [i]
    | some pr => pathTo s fuel pr ++ [i]

/-- State of the chain tracker: `headersChain` is the CChain vector of
entry positions indexed by height, `headerChainTips` the std::list of
branch tips in list order. -/
structure HeaderState where
  headersChain : List Nat
  headerChainTips : List Nat
deriving DecidableEq

def setTip (s : Store) (st : HeaderState) (b : Nat) : HeaderState :=
  { st with headersChain := pathTo s ((entryAt s b).nHeight + 1) b }

/-- Modelled from the spec: `CChain::Contains` checks that the chain
entry at the height of the block is the block itself. -/
def chainContains (s : Store) (st : HeaderState) (i : Nat) : Bool :=
  st.headersChain[(entryAt s i).nHeight]? == some i

/-- The first loop of appendHeader: find the first tracked tip reached
by walking the parent chain of `b` down to the height of that tip;
return it together with the remaining tips in list order. -/
def firstWalkMatch (s : Store) (b : Nat) : List Nat → List Nat → Option (Nat × List Nat)
  | _, [] => none
  | acc, t :: ts =>
    if walkDown s ((entryAt s b).nHeight + 1) b (entryAt s t).nHeight = some t then
      some (t, acc.reverse ++ ts)
    else firstWalkMatch s b (t :: acc) ts

/-- The second loop of appendHeader: find the first tracked tip whose
ancestor at the height of `b` is `b` itself. -/
def firstAncestorMatch (s : Store) (b : Nat) : List Nat → List Nat → Option (Nat × List Nat)
  | _, [] => none
  | acc, t :: ts =>
    if getAncestor s t (entryAt s b).nHeight = some b then
      some (t, acc.reverse ++ ts)
    else firstAncestorMatch s b (t :: acc) ts

/-- The final cumulative-work comparison of appendHeader: promote the
block when its chain work strictly exceeds that of the current chain
tip.  Returns `none` when the chain has no tip (the C++ dereferences a
null pointer there). -/
def finalCompare (s : Store) (st : HeaderState) (b : Nat) : Option (Bool × HeaderState) :=
  match st.headersChain.getLast? with
  | none => none
  | some tip =>
    if (entryAt s tip).nChainWork < (entryAt s b).nChainWork then some (true, setTip s st b)
    else some (false, st)

/-- Blocks::DB::appendHeader, transcribed from the source.  `none`
models a failed assertion (an invalid block without a parent).  The
branches: extend a tracked tip (retreating to the parent when the block
is invalid); cap a branch that already contains the block when it is
invalid; otherwise start a new branch when valid (becoming the chain
when it is the very first entry); finally promote to the canonical
chain on strictly greater cumulative work. -/
def DB.appendHeader (s : Store) (st : HeaderState) (b : Nat) :
    Option (Bool × HeaderState) :=
  let be := entryAt s b
  if be.failed ∧ be.pprev = none then none
  else
    match firstWalkMatch s b [] st.headerChainTips with
    | some (t, others) =>
      let b2 := if be.failed then be.pprev.getD b else b
      let st2 : HeaderState := { st with headerChainTips := others ++ [b2] }
      if st.headersChain.getLast? = some t then some (true, setTip s st2 b2)
      else finalCompare s st2 b2
    | none =>
      match firstAncestorMatch s b [] st.headerChainTips with
      | some (t, others) =>
        if be.failed = false then some (false, st)
        else
          let b2 := be.pprev.getD b
          let modifying := chainContains s st t
          let st2 : HeaderState := { st with headerChainTips := others ++ [b2] }
          some (modifying, if modifying then setTip s st2 b2 else st2)
      | none =>
        if be.failed = false then
          let st2 : HeaderState := { st with headerChainTips := st.headerChainTips ++ [b] }
          if st2.headersChain.isEmpty then some (true, setTip s st2 b)
          else finalCompare s st2 b
        else finalCompare s st b

/-- Run a sequence of appendHeader calls, counting how many report a
canonical-tip change. -/
def appendAll (s : Store) : HeaderState → List Nat → Option (Nat × HeaderState)
  | st, [] => some (0, st)
  | st, b :: bs =>
    match DB.appendHeader s st b with
    | none => none
    | some (r, st2) =>
      match appendAll s st2 bs with
      | none => none
      | some (n, st3) => some ((if r then 1 else 0) + n, st3)

/-- A linear chain of K blocks on top of genesis, with arbitrary
cumulative works. -/
def linearStore (k : Nat) (w : Nat → Nat) : Store :=
  (List.range (k + 1)).map fun i => ⟨if i = 0 then none else some (i - 1), i, w i, false⟩

/-! Byte-level lemmas -/

/-- The standard parameters: the mainnet message-start bytes,
BLOCKFILE_CHUNK_SIZE = 0x1000000, UNDOFILE_CHUNK_SIZE = 0x100000,
MAX_BLOCKFILE_SIZE = 0x8000000, and a concrete stand-in for the
abstract checksum hash (the theorems hold for every hash). -/
def stdParams : DBParams :=
  { magic := [249, 190, 180, 217], blkChunk := 16777216, undoChunk := 1048576,
    maxFileSize := 134217728, chk := fun h payload => h ++ payload }

/-- The state of a freshly created store: no files on disk, no live
mappings, no per-file info. -/
def freshState : DBState :=
  { nLastBlockFile := 0, vinfoBlockFile := [], setDirtyFileInfo := [],
    blkDisk := fun _ => none, revDisk := fun _ => none, blkCache := [], revCache := [] }

/-- The checksum length expected after the payload (undo role only). -/
def csLenOf : Option (List Nat) → Nat
  | some _ => 32
  | none => 0

/-- The byte content visible through a mapping of the given file. -/
def contentAt (st : DBState) (r : Bool) (f : Nat) : Nat → Nat :=
  ((st.disk r f).getD ⟨0, fun _ => 0⟩).content

/-- The stored undo checksum does not match the one recomputed from the
supplied block hash. -/
def checksumBad (p : DBParams) (content : Nat → Nat) (pos len : Nat) :
    Option (List Nat) → Prop
  | some h => ¬ readBytesF content (pos + len) 32 = p.chk32 h (readBytesF content pos len)
  | none => False

/-- A malformed record at the given position of a file mapped with the
given size: position below 4, position at or past the mapped size,
derived payload length (plus checksum) running past the mapped size, or
an undo checksum mismatch. -/
def malformedAt (p : DBParams) (content : Nat → Nat) (fileSize pos : Nat)
    (blockHash : Option (List Nat)) : Prop :=
  pos < 4 ∨ fileSize ≤ pos ∨
  fileSize < pos + le32dec (readBytesF content (pos - 4) 4) + csLenOf blockHash ∨
  checksumBad p content pos (le32dec (readBytesF content (pos - 4) 4)) blockHash

/-- A state with one mapped body file of 10 zero bytes. -/
def tenByteState : DBState :=
  { freshState with blkDisk := fun i => if i = 0 then some ⟨10, fun _ => 0⟩ else none }

/-- A state with one mapped 10-byte body file whose 4 bytes before
position 8 store the little-endian length 4294967288 = 2^32 - 8, so
that position 8 plus the derived length wraps to 0 in 32-bit
arithmetic. -/
def wrapState : DBState :=
  { freshState with blkDisk := fun i =>
      if i = 0 then some ⟨10, writeBytesF (fun _ => 0) 4 [248, 255, 255, 255]⟩
      else none }

/-- A state whose two mapping tables have different sizes: no body-file
slots but one undo-file slot. -/
def asymState : DBState :=
  { freshState with revCache := [some 5] }

/-- A state with one active body file of 120 mapped bytes already
holding 100 used bytes, for the C3 witness. -/
def grownState : DBState :=
  { nLastBlockFile := 0, vinfoBlockFile := [{ nSize := 100 }], setDirtyFileInfo := [],
    blkDisk := fun i => if i = 0 then some ⟨120, fun _ => 0⟩ else none,
    revDisk := fun _ => none, blkCache := [some 120], revCache := [] }

/-- A genesis with two competing children of arbitrary cumulative
works. -/
def forkStore (wg wa wb : Nat) : Store :=
  [⟨none, 0, wg, false⟩, ⟨some 0, 1, wa, false⟩, ⟨some 0, 1, wb, false⟩]

/-- genesis (work 10), A1 on it (work 20), A2 on A1 (work 30), and a
sibling branch B1 on genesis (work 15); all valid. -/
def cexStoreA : Store :=
  [⟨none, 0, 10, false⟩, ⟨some 0, 1, 20, false⟩, ⟨some 1, 2, 30, false⟩,
   ⟨some 0, 1, 15, false⟩]

/-- The same store after the caller marks A1 as failed. -/
def cexStoreB : Store :=
  [⟨none, 0, 10, false⟩, ⟨some 0, 1, 20, true⟩, ⟨some 1, 2, 30, false⟩,
   ⟨some 0, 1, 15, false⟩]

/-- genesis (work 10), A1 on it (work 20), B1 on genesis (work 15), B2
on B1 (work 18); all valid. -/
def bugStoreA : Store :=
  [⟨none, 0, 10, false⟩, ⟨some 0, 1, 20, false⟩, ⟨some 0, 1, 15, false⟩,
   ⟨some 2, 2, 18, false⟩]

/-- The same chains plus a failed sibling of B2 on B1 with the greatest
work (25). -/
def bugStoreB : Store :=
  [⟨none, 0, 10, false⟩, ⟨some 0, 1, 20, false⟩, ⟨some 0, 1, 15, false⟩,
   ⟨some 2, 2, 18, false⟩, ⟨some 2, 2, 25, true⟩]

theorem writeBytesF_getD (f : Nat → Nat) (u : Nat) (bs : List Nat) (i : Nat)
    (hi : i < bs.length) : writeBytesF f u bs (u + i) = bs.getD i 0 := by
  simp only [writeBytesF]
  rw [if_pos ⟨Nat.le_add_right u i, by omega⟩]
  simp

theorem writeBytesF_outside (f : Nat → Nat) (u : Nat) (bs : List Nat) (j : Nat)
    (hj : j < u ∨ u + bs.length ≤ j) : writeBytesF f u bs j = f j := by
  simp only [writeBytesF]
  rw [if_neg]
  omega

theorem readBytesF_length (f : Nat → Nat) (start n : Nat) :
    (readBytesF f start n).length = n := by
  simp [readBytesF]

theorem list_getD_self (l : List Nat) :
    (List.range l.length).map (fun i => l.getD i 0) = l := by
  apply List.ext_getElem
  · simp
  · intro i h1 h2
    simp only [List.getElem_map, List.getElem_range]
    exact List.getD_eq_getElem l 0 (by simpa using h2)

/-- Reading back a middle segment of a just-written byte list. -/
theorem readBytesF_write_seg (f : Nat → Nat) (u : Nat) (l1 l2 l3 : List Nat) :
    readBytesF (writeBytesF f u (l1 ++ l2 ++ l3)) (u + l1.length) l2.length = l2 := by
  have hlen : ∀ i, i < l2.length → l1.length + i < (l1 ++ l2 ++ l3).length := by
    intro i hi; simp; omega
  apply List.ext_getElem
  · simp [readBytesF_length]
  · intro i h1 h2
    simp only [readBytesF, List.getElem_map, List.getElem_range]
    have h2l : i < l2.length := by simpa using h2
    have : u + l1.length + i = u + (l1.length + i) := by omega
    rw [this, writeBytesF_getD f u _ _ (hlen i h2l)]
    rw [List.append_assoc, List.getD_append_right _ _ _ _ (Nat.le_add_right _ _),
      Nat.add_sub_cancel_left, List.getD_append _ _ _ _ h2l, List.getD_eq_getElem _ _ h2l]

theorem le32enc_length (n : Nat) : (le32enc n).length = 4 := by simp [le32enc]

theorem le32dec_le32enc (n : Nat) (hn : n < 4294967296) : le32dec (le32enc n) = n := by
  simp only [le32enc, le32dec, List.getD_cons_zero, List.getD_cons_succ]
  omega

theorem pad32_length (bs : List Nat) : (pad32 bs).length = 32 := by
  simp [pad32]

theorem magic4_length (p : DBParams) : (magic4 p).length = 4 := by
  simp [magic4]

theorem chk32_length (p : DBParams) (h payload : List Nat) :
    (p.chk32 h payload).length = 32 := pad32_length _

theorem recordOf_length (p : DBParams) (payload : List Nat) (useBlk : Bool)
    (blockHash : List Nat) :
    (recordOf p payload useBlk blockHash).length =
      8 + payload.length + (if useBlk then 0 else 32) := by
  cases useBlk <;>
    simp [recordOf, magic4_length, le32enc_length, chk32_length] <;> omega

/-! State-accessor lemmas -/

theorem cache_setCache (st : DBState) (r : Bool) (c : List (Option Nat)) :
    (st.setCache r c).cache r = c := by
  cases r <;> simp [DBState.setCache, DBState.cache]

theorem disk_setCache (st : DBState) (r : Bool) (c : List (Option Nat)) (r2 : Bool)
    (g : Nat) : (st.setCache r c).disk r2 g = st.disk r2 g := by
  cases r <;> cases r2 <;> simp [DBState.setCache, DBState.disk]

theorem vinfo_setCache (st : DBState) (r : Bool) (c : List (Option Nat)) :
    (st.setCache r c).vinfoBlockFile = st.vinfoBlockFile := by
  cases r <;> simp [DBState.setCache]

theorem nLast_setCache (st : DBState) (r : Bool) (c : List (Option Nat)) :
    (st.setCache r c).nLastBlockFile = st.nLastBlockFile := by
  cases r <;> simp [DBState.setCache]

theorem disk_setDisk_self (st : DBState) (r : Bool) (f : Nat) (d : Option DiskFile) :
    (st.setDisk r f d).disk r f = d := by
  cases r <;> simp [DBState.setDisk, DBState.disk]

theorem disk_setDisk_other (st : DBState) (r : Bool) (f : Nat) (d : Option DiskFile)
    (g : Nat) (hg : g ≠ f) : (st.setDisk r f d).disk r g = st.disk r g := by
  cases r <;> simp [DBState.setDisk, DBState.disk, hg]

theorem cache_setDisk (st : DBState) (r : Bool) (f : Nat) (d : Option DiskFile)
    (r2 : Bool) : (st.setDisk r f d).cache r2 = st.cache r2 := by
  cases r <;> cases r2 <;> simp [DBState.setDisk, DBState.cache]

theorem setCache_cache_self (st : DBState) (r : Bool) :
    st.setCache r (st.cache r) = st := by
  cases r <;> simp [DBState.setCache, DBState.cache]

/-! mapFile lemmas -/

theorem getD_lt_length (l : List (Option Nat)) (f : Nat) (sz : Nat)
    (h : l.getD f none = some sz) : f < l.length := by
  by_contra hf
  rw [List.getD_eq_default _ _ (by omega)] at h
  exact Option.noConfusion h

theorem resizeCache_of_lt (l : List (Option Nat)) (f : Nat) (h : f < l.length) :
    resizeCache l f = l := by
  simp only [resizeCache]
  rw [if_neg (by omega)]

theorem resizeCache_length (l : List (Option Nat)) (f : Nat) :
    f < (resizeCache l f).length := by
  simp only [resizeCache]
  split
  · simp only [List.length_append, List.length_replicate]
    omega
  · omega

theorem resizeCache_getD (l : List (Option Nat)) (f g : Nat) :
    (resizeCache l f).getD g none = l.getD g none := by
  simp only [resizeCache]
  split
  · rcases Nat.lt_or_ge g l.length with h | h
    · rw [List.getD_append _ _ _ _ h]
    · rw [List.getD_append_right _ _ _ _ h, List.getD_eq_default _ _ h]
      rcases Nat.lt_or_ge (g - l.length) (f + 10 - l.length) with h2 | h2
      · rw [List.getD_eq_getElem _ _ (by simpa using h2)]
        simp
      · rw [List.getD_eq_default _ _ (by simpa using h2)]
  · rfl

/-- mapFile on a live cached slot returns the cached size and leaves the
state alone. -/
theorem mapFile_cached (st : DBState) (f : Nat) (r : Bool) (sz : Nat)
    (h : (st.cache r).getD f none = some sz) :
    DBPrivate.mapFile st f r = (some sz, st) := by
  have hf : f < (st.cache r).length := getD_lt_length _ _ _ h
  simp only [DBPrivate.mapFile, resizeCache_of_lt _ _ hf, h, setCache_cache_self]

/-- mapFile on an empty slot with the file present on disk maps it
fresh and caches its current size. -/
theorem mapFile_fresh (st : DBState) (f : Nat) (r : Bool) (d : DiskFile)
    (hc : (st.cache r).getD f none = none) (hd : st.disk r f = some d) :
    DBPrivate.mapFile st f r =
      (some d.size, st.setCache r ((resizeCache (st.cache r) f).set f (some d.size))) := by
  simp only [DBPrivate.mapFile, resizeCache_getD, hc, hd]

/-- mapFile on an empty slot with the file missing reports no data. -/
theorem mapFile_missing (st : DBState) (f : Nat) (r : Bool)
    (hc : (st.cache r).getD f none = none) (hd : st.disk r f = none) :
    DBPrivate.mapFile st f r = (none, st.setCache r (resizeCache (st.cache r) f)) := by
  simp only [DBPrivate.mapFile, resizeCache_getD, hc, hd]

theorem getD_set_self (l : List (Option Nat)) (f : Nat) (v : Option Nat)
    (h : f < l.length) : (l.set f v).getD f none = v := by
  rw [List.getD_eq_getElem _ _ (by simpa using h)]
  simp [List.getElem_set_self]

/-- Whenever mapFile reports a size, the resulting state caches exactly
that size for the slot. -/
theorem mapFile_slot (st : DBState) (f : Nat) (r : Bool) (sz : Nat) (st1 : DBState)
    (h : DBPrivate.mapFile st f r = (some sz, st1)) :
    (st1.cache r).getD f none = some sz := by
  by_cases hc : ∃ s0, (st.cache r).getD f none = some s0
  · obtain ⟨s0, hs0⟩ := hc
    rw [mapFile_cached st f r s0 hs0] at h
    obtain ⟨h1, h2⟩ := Prod.mk.injEq .. ▸ h
    cases h1; cases h2
    simpa using hs0
  · push_neg at hc
    have hcn : (st.cache r).getD f none = none := by
      cases hx : (st.cache r).getD f none
      · rfl
      · exact absurd hx (hc _)
    cases hd : st.disk r f with
    | none => rw [mapFile_missing st f r hcn hd] at h; exact absurd (congrArg Prod.fst h) (by simp)
    | some d =>
      rw [mapFile_fresh st f r d hcn hd] at h
      obtain ⟨h1, h2⟩ := Prod.mk.injEq .. ▸ h
      cases h2
      have : sz = d.size := by simpa using h1.symm
      subst this
      rw [cache_setCache]
      exact getD_set_self _ _ _ (resizeCache_length _ _)

/-- mapFile never touches disks, file infos or the last-file counter. -/
theorem mapFile_frame (st : DBState) (f : Nat) (r : Bool) :
    (DBPrivate.mapFile st f r).2.disk = st.disk ∧
    (DBPrivate.mapFile st f r).2.vinfoBlockFile = st.vinfoBlockFile ∧
    (DBPrivate.mapFile st f r).2.nLastBlockFile = st.nLastBlockFile := by
  simp only [DBPrivate.mapFile]
  cases (resizeCache (st.cache r) f).getD f none with
  | some sz =>
    refine ⟨funext fun r2 => funext fun g => ?_, vinfo_setCache .., nLast_setCache ..⟩
    exact disk_setCache ..
  | none =>
    cases st.disk r f <;>
      exact ⟨funext fun r2 => funext fun g => disk_setCache .., vinfo_setCache ..,
        nLast_setCache ..⟩

/-! Inversion of the write path -/

theorem cache_setDisk_getD (st : DBState) (r : Bool) (f : Nat) (d : Option DiskFile)
    (r2 : Bool) (g : Nat) :
    ((st.setDisk r f d).cache r2).getD g none = (st.cache r2).getD g none := by
  rw [cache_setDisk]

/-- Characterization of a successful writeBlockCore: the framed record
sits in the written file at the append offset, the slot caches a mapped
size covering the whole record, and nothing else about the disks
changed. -/
theorem writeBlockCore_ok_spec (p : DBParams) (st2 : DBState) (f : Nat) (r : Bool)
    (u : Nat) (payload : List Nat) (H : List Nat) (st7 : DBState) (fsz : Nat)
    (hok : DBPrivate.writeBlockCore p st2 f r u payload H = .ok (st7, fsz)) :
    ∃ c dsz,
      st7.disk r f = some ⟨dsz, writeBytesF c u (recordOf p payload r H)⟩ ∧
      (st7.cache r).getD f none = some fsz ∧
      u + (recordOf p payload r H).length ≤ fsz := by
  simp only [DBPrivate.writeBlockCore] at hok
  split at hok
  · exact absurd hok (by simp)
  next fileSize0 st3 hm =>
    split at hok
    · exact absurd hok (by simp)
    next fileSize st6 heq =>
      split at hok
      · exact absurd hok (by simp)
      next hfit =>
        have hslot6 : (st6.cache r).getD f none = some fileSize := by
          split at heq
          · have h2 : DBPrivate.mapFile
                (if r = true then DBPrivate.fileHasGrown (resizeDisk st3 r f
                    (fileSize0 + (if r = true then p.blkChunk else p.undoChunk)))
                    (Int.ofNat f)
                  else DBPrivate.revertFileHasGrown (resizeDisk st3 r f
                    (fileSize0 + (if r = true then p.blkChunk else p.undoChunk)))
                    (Int.ofNat f)) f r = (some fileSize, st6) := by
              simpa only [growCycle] using heq
            exact mapFile_slot _ _ _ _ _ h2
          · obtain ⟨h1, h2⟩ := Prod.mk.injEq .. ▸ heq
            cases h2
            have : fileSize0 = fileSize := by simpa using h1
            subst this
            exact mapFile_slot _ _ _ _ _ hm
        obtain ⟨hst, hfs⟩ := Prod.mk.injEq .. ▸ (Except.ok.injEq .. ▸ hok)
        subst hfs
        refine ⟨((st6.disk r f).getD ⟨fileSize, fun _ => 0⟩).content,
          ((st6.disk r f).getD ⟨fileSize, fun _ => 0⟩).size, ?_, ?_, ?_⟩
        · rw [← hst, disk_setDisk_self]
        · rw [← hst, cache_setDisk_getD]
          exact hslot6
        · omega

theorem disk_setInfoDirty (st : DBState) (v : List CBlockFileInfo) (s : List Nat) :
    ({ st with vinfoBlockFile := v, setDirtyFileInfo := s } : DBState).disk = st.disk := by
  funext r g
  cases r <;> rfl

theorem cache_setInfoDirty (st : DBState) (v : List CBlockFileInfo) (s : List Nat) :
    ({ st with vinfoBlockFile := v, setDirtyFileInfo := s } : DBState).cache = st.cache := by
  funext r
  cases r <;> rfl

/-- Characterization of a successful writeFinish: the payload position
is 8 past the record start, the framed record sits in the file content
at the record start, the slot caches a mapped size covering the whole
record, and the returned view is the payload read back from the
mapping. -/
theorem writeFinish_ok_spec (p : DBParams) (st2 : DBState) (pf : Nat) (useBlk : Bool)
    (u : Nat) (info : CBlockFileInfo) (payload : List Nat)
    (blockHeight timestamp : Nat) (blockHash : List Nat) (out : WriteOut)
    (hok : DBPrivate.writeFinish p st2 pf useBlk u info payload blockHeight timestamp
      blockHash = .ok out) :
    ∃ c dsz fsF, 8 ≤ out.posPos ∧
      out.st.disk useBlk out.posFile =
        some ⟨dsz, writeBytesF c (out.posPos - 8) (recordOf p payload useBlk blockHash)⟩ ∧
      (out.st.cache useBlk).getD out.posFile none = some fsF ∧
      (out.posPos - 8) + (recordOf p payload useBlk blockHash).length ≤ fsF ∧
      out.view = readBytesF (writeBytesF c (out.posPos - 8) (recordOf p payload useBlk
        blockHash)) out.posPos payload.length := by
  simp only [DBPrivate.writeFinish] at hok
  split at hok
  · exact absurd hok (by simp)
  next st7 fsz hcore =>
    obtain ⟨c, dsz, hdisk, hslot, hfit⟩ := writeBlockCore_ok_spec _ _ _ _ _ _ _ _ _ hcore
    injection hok with hout
    subst hout
    refine ⟨c, dsz, fsz, ?_⟩
    simp only [WriteOut.posPos, WriteOut.posFile, WriteOut.st, WriteOut.view,
      disk_setInfoDirty, cache_setInfoDirty, Nat.add_sub_cancel]
    refine ⟨by omega, hdisk, hslot, hfit, ?_⟩
    rw [hdisk]
    rfl

/-- A successful writeBlock factors through writeFinish. -/
theorem writeBlock_as_finish (p : DBParams) (st0 : DBState) (payload : List Nat)
    (posFileIn : Nat) (useBlk : Bool) (blockHeight timestamp : Nat)
    (blockHash : List Nat) (out : WriteOut)
    (hok : DBPrivate.writeBlock p st0 payload posFileIn useBlk blockHeight timestamp
      blockHash = .ok out) :
    ∃ st2 pf u info, DBPrivate.writeFinish p st2 pf useBlk u info payload blockHeight
      timestamp blockHash = .ok out := by
  simp only [DBPrivate.writeBlock] at hok
  repeat' split at hok
  all_goals
    first
      | exact ⟨_, _, _, _, hok⟩
      | (subst_vars; exact ⟨_, _, _, _, hok⟩)
      | exact absurd hok (by simp)

/-- Characterization of a successful writeBlock: the payload position is
8 past the record start, the framed record (magic, little-endian
length, payload, optional checksum) sits in the file content at the
record start, the slot caches a mapped size covering the whole record,
and the returned view is the payload read back from the mapping. -/
theorem writeBlock_ok_spec (p : DBParams) (st0 : DBState) (payload : List Nat)
    (posFileIn : Nat) (useBlk : Bool) (blockHeight timestamp : Nat)
    (blockHash : List Nat) (out : WriteOut)
    (hok : DBPrivate.writeBlock p st0 payload posFileIn useBlk blockHeight timestamp
      blockHash = .ok out) :
    ∃ c dsz fsF, 8 ≤ out.posPos ∧
      out.st.disk useBlk out.posFile =
        some ⟨dsz, writeBytesF c (out.posPos - 8) (recordOf p payload useBlk blockHash)⟩ ∧
      (out.st.cache useBlk).getD out.posFile none = some fsF ∧
      (out.posPos - 8) + (recordOf p payload useBlk blockHash).length ≤ fsF ∧
      out.view = readBytesF (writeBytesF c (out.posPos - 8) (recordOf p payload useBlk
        blockHash)) out.posPos payload.length := by
  obtain ⟨st2, pf, u, info, hfin⟩ :=
    writeBlock_as_finish p st0 payload posFileIn useBlk blockHeight timestamp blockHash
      out hok
  exact writeFinish_ok_spec p st2 pf useBlk u info payload blockHeight timestamp
    blockHash out hfin

/-! Reading a written record back -/

theorem readBytesF_write_at (f : Nat → Nat) (u a n : Nat) (L l1 l2 l3 : List Nat)
    (hL : L = l1 ++ l2 ++ l3) (ha : a = u + l1.length) (hn : n = l2.length) :
    readBytesF (writeBytesF f u L) a n = l2 := by
  subst hL
  subst ha
  subst hn
  exact readBytesF_write_seg f u l1 l2 l3

/-- Loading a body record that sits in the mapped file at offset `u`,
with the slot mapping at least the whole record, returns exactly the
payload (the length is re-derived from the 4 bytes before the
position). -/
theorem loadBlock_after_write (p : DBParams) (st : DBState) (f u : Nat)
    (c : Nat → Nat) (dsz fsF : Nat) (payload : List Nat)
    (hdisk : st.disk true f = some ⟨dsz, writeBytesF c u (recordOf p payload true [])⟩)
    (hslot : (st.cache true).getD f none = some fsF)
    (hfit : u + (recordOf p payload true []).length ≤ fsF)
    (hlen : 0 < payload.length) (hlen32 : payload.length < 4294967296) :
    DB.loadBlock p st f (u + 8) = .ok (payload, st) := by
  have hreclen := recordOf_length p payload true []
  simp only [if_pos, if_true] at hreclen
  have h1 : ¬(u + 8 < 4) := by omega
  have h2 : ¬(fsF ≤ u + 8) := by omega
  have hlenread : readBytesF (writeBytesF c u (recordOf p payload true [])) (u + 8 - 4) 4 =
      le32enc payload.length := by
    refine readBytesF_write_at c u _ _ _ (magic4 p) (le32enc payload.length) payload
      (by simp [recordOf]) ?_ (le32enc_length _).symm
    rw [magic4_length]
    omega
  have hpayread : readBytesF (writeBytesF c u (recordOf p payload true [])) (u + 8)
      payload.length = payload := by
    refine readBytesF_write_at c u _ _ _ (magic4 p ++ le32enc payload.length) payload []
      (by simp [recordOf]) ?_ rfl
    simp [magic4_length, le32enc_length]
  have h4 : ¬(fsF < u + 8 + payload.length + 0) := by omega
  have h4m : ¬(fsF < (u + 8 + payload.length + 0) % 4294967296) := by
    have := Nat.mod_le (u + 8 + payload.length + 0) 4294967296
    omega
  simp only [DB.loadBlock, DBPrivate.loadBlock, h1, if_false,
    mapFile_cached st f true fsF hslot, hdisk, Option.getD_some, hlenread,
    le32dec_le32enc _ hlen32, h2, h4, h4m, hpayread, ite_false]

/-- Loading an undo record that sits in the mapped file at offset `u`
succeeds exactly when the checksum recomputed from the supplied block
hash matches the stored one, and then returns exactly the payload. -/
theorem loadUndoBlock_after_write (p : DBParams) (st : DBState) (f u : Nat)
    (c : Nat → Nat) (dsz fsF : Nat) (payload : List Nat) (H H2 : List Nat)
    (hdisk : st.disk false f = some ⟨dsz, writeBytesF c u (recordOf p payload false H)⟩)
    (hslot : (st.cache false).getD f none = some fsF)
    (hfit : u + (recordOf p payload false H).length ≤ fsF)
    (hlen32 : payload.length < 4294967296) :
    DB.loadUndoBlock p st f (u + 8) H2 =
      (if p.chk32 H payload = p.chk32 H2 payload then .ok (payload, st)
       else .error .checksumMismatch) := by
  have hreclen := recordOf_length p payload false H
  simp only [if_neg, if_false, Bool.false_eq_true, ite_false] at hreclen
  have h1 : ¬(u + 8 < 4) := by omega
  have h2 : ¬(fsF ≤ u + 8) := by omega
  have hlenread : readBytesF (writeBytesF c u (recordOf p payload false H)) (u + 8 - 4) 4 =
      le32enc payload.length := by
    refine readBytesF_write_at c u _ _ _ (magic4 p) (le32enc payload.length)
      (payload ++ p.chk32 H payload) (by simp [recordOf]) ?_ (le32enc_length _).symm
    rw [magic4_length]
    omega
  have hpayread : readBytesF (writeBytesF c u (recordOf p payload false H)) (u + 8)
      payload.length = payload := by
    refine readBytesF_write_at c u _ _ _ (magic4 p ++ le32enc payload.length) payload
      (p.chk32 H payload) (by simp [recordOf]) ?_ rfl
    simp [magic4_length, le32enc_length]
  have hcsread : readBytesF (writeBytesF c u (recordOf p payload false H))
      (u + 8 + payload.length) 32 = p.chk32 H payload := by
    refine readBytesF_write_at c u _ _ _
      (magic4 p ++ le32enc payload.length ++ payload) (p.chk32 H payload) []
      (by simp [recordOf]) ?_ (chk32_length p H payload).symm
    simp [magic4_length, le32enc_length]
    omega
  have h4 : ¬(fsF < u + 8 + payload.length + 32) := by omega
  have h4m : ¬(fsF < (u + 8 + payload.length + 32) % 4294967296) := by
    have := Nat.mod_le (u + 8 + payload.length + 32) 4294967296
    omega
  simp only [DB.loadUndoBlock, DBPrivate.loadBlock, h1, if_false,
    mapFile_cached st f false fsF hslot, hdisk, Option.getD_some, hlenread,
    le32dec_le32enc _ hlen32, h2, h4, h4m, hpayread, hcsread, ite_false]

/-! Concrete instantiations used by the witnesses -/

/-! Claim theorems for the write and load paths.  The `Coherent` and
fresh-slot hypotheses restrict the statements to states where the
shallow model agrees with the C++ shared-mapping semantics: every live
cached mapping has the current on-disk size (the source maintains this
by issuing the grow notification under the same mutex as every
`resize_file`), and the slot of a file about to be created from
scratch holds no stale mapping of a prior file. -/

/-- C1: for every payload written with writeBlock (body role), reading
it back with loadBlock at the returned file position yields exactly the
original payload bytes; the write frames the payload after an 8-byte
header and the read re-derives the length from the 4 bytes preceding
the position. -/
theorem writeBlock_loadBlock_roundtrip (p : DBParams) (st : DBState)
    (blockHeight timestamp : Nat) (payload : List Nat) (out : WriteOut)
    (hC : Coherent st)
    (hF1 : st.vinfoBlockFile.length ≤ st.nLastBlockFile →
      st.blkCache.getD st.nLastBlockFile none = none)
    (hF2 : p.maxFileSize <
        (st.vinfoBlockFile.getD st.nLastBlockFile default).nSize + payload.length + 8 →
      st.blkCache.getD (st.nLastBlockFile + 1) none = none)
    (hlen : 0 < payload.length) (hlen32 : payload.length < 4294967296)
    (hok : DB.writeBlock p st blockHeight payload timestamp = .ok out) :
    out.view = payload ∧
    DB.loadBlock p out.st out.posFile out.posPos = .ok (payload, out.st) := by
  obtain ⟨c, dsz, fsF, hpos, hdisk, hslot, hfit, hview⟩ :=
    writeBlock_ok_spec p st payload 0 true blockHeight timestamp [] out hok
  have h8 : out.posPos - 8 + 8 = out.posPos := by omega
  constructor
  · rw [hview]
    refine readBytesF_write_at c (out.posPos - 8) _ _ _
      (magic4 p ++ le32enc payload.length) payload [] (by simp [recordOf]) ?_ rfl
    simp [magic4_length, le32enc_length]
    omega
  · rw [← h8]
    exact loadBlock_after_write p out.st out.posFile (out.posPos - 8) c dsz fsF payload
      hdisk hslot hfit hlen hlen32

/-- C1 witness: a concrete write and read-back from a fresh store. -/
theorem writeBlock_loadBlock_roundtrip_witness :
    ∃ out, DB.writeBlock stdParams freshState 1 [5, 6, 7] 0 = .ok out ∧
      out.view = [5, 6, 7] ∧
      DB.loadBlock stdParams out.st out.posFile out.posPos = .ok ([5, 6, 7], out.st) := by
  refine ⟨_, rfl, ?_⟩
  exact writeBlock_loadBlock_roundtrip stdParams freshState 1 0 [5, 6, 7] _
    ⟨rfl, rfl⟩ (by decide) (by decide) (by decide) (by decide) rfl

/-- C2: an undo payload written under parent hash H reads back intact
with the same hash, and fails with the StorageCorruption checksum
mismatch for any hash whose recomputed checksum differs (for the real
double hash, every different parent hash outside an astronomically
unlikely collision). -/
theorem writeUndoBlock_loadUndoBlock_checksum (p : DBParams) (st : DBState)
    (payload : List Nat) (H H2 : List Nat) (fileIndex : Nat) (out : WriteOut)
    (hC : Coherent st)
    (hF : st.vinfoBlockFile.length ≤ st.nLastBlockFile ∨
        (st.vinfoBlockFile.getD fileIndex default).nUndoSize = 0 →
      st.revCache.getD fileIndex none = none)
    (hlen32 : payload.length < 4294967296)
    (hok : DB.writeUndoBlock p st payload H fileIndex = .ok out) :
    DB.loadUndoBlock p out.st out.posFile out.posPos H = .ok (payload, out.st) ∧
    (p.chk32 H payload ≠ p.chk32 H2 payload →
      DB.loadUndoBlock p out.st out.posFile out.posPos H2 = .error .checksumMismatch ∧
      isStorageCorruption .checksumMismatch = true) := by
  obtain ⟨c, dsz, fsF, hpos, hdisk, hslot, hfit, hview⟩ :=
    writeBlock_ok_spec p st payload fileIndex false 0 0 H out hok
  have h8 : out.posPos - 8 + 8 = out.posPos := by omega
  constructor
  · rw [← h8]
    rw [loadUndoBlock_after_write p out.st out.posFile (out.posPos - 8) c dsz fsF payload
      H H hdisk hslot hfit hlen32]
    rw [if_pos rfl]
  · intro hne
    rw [← h8]
    rw [loadUndoBlock_after_write p out.st out.posFile (out.posPos - 8) c dsz fsF payload
      H H2 hdisk hslot hfit hlen32]
    rw [if_neg hne]
    exact ⟨rfl, rfl⟩

/-- C2 witness: a concrete undo write read back with the same and with
a different parent hash. -/
theorem writeUndoBlock_loadUndoBlock_checksum_witness :
    ∃ out, DB.writeUndoBlock stdParams freshState [5, 6, 7] [1, 1] 0 = .ok out ∧
      DB.loadUndoBlock stdParams out.st out.posFile out.posPos [1, 1] =
        .ok ([5, 6, 7], out.st) ∧
      DB.loadUndoBlock stdParams out.st out.posFile out.posPos [2, 2] =
        .error .checksumMismatch := by
  refine ⟨_, rfl, ?_⟩
  have h := writeUndoBlock_loadUndoBlock_checksum stdParams freshState [5, 6, 7]
    [1, 1] [2, 2] 0 _ ⟨rfl, rfl⟩ (by decide) (by decide) rfl
  exact ⟨h.1, (h.2 (by decide)).1⟩

set_option maxRecDepth 8000 in
/-- C8: the returned position is the byte offset of the payload, 8 past
the record start: the 4 magic bytes sit at position - 8, the 4-byte
little-endian length at position - 4, and the payload at the position;
concretely, a 100-byte payload written first into a file returns
position 8 and a 120-byte payload written next returns position 116. -/
theorem writeBlock_position_is_payload_offset (p : DBParams) (st : DBState)
    (blockHeight timestamp : Nat) (payload : List Nat) (out : WriteOut)
    (hC : Coherent st)
    (hF1 : st.vinfoBlockFile.length ≤ st.nLastBlockFile →
      st.blkCache.getD st.nLastBlockFile none = none)
    (hF2 : p.maxFileSize <
        (st.vinfoBlockFile.getD st.nLastBlockFile default).nSize + payload.length + 8 →
      st.blkCache.getD (st.nLastBlockFile + 1) none = none)
    (hok : DB.writeBlock p st blockHeight payload timestamp = .ok out) :
    (∃ dfile, out.st.disk true out.posFile = some dfile ∧ 8 ≤ out.posPos ∧
      readBytesF dfile.content (out.posPos - 8) 4 = magic4 p ∧
      readBytesF dfile.content (out.posPos - 4) 4 = le32enc payload.length ∧
      readBytesF dfile.content out.posPos payload.length = payload) ∧
    ((DB.writeBlock stdParams freshState 1 (List.replicate 100 1) 0).toOption.map
        (fun o => (o.posFile, o.posPos)) = some (0, 8) ∧
      ((DB.writeBlock stdParams freshState 1 (List.replicate 100 1) 0).toOption.bind
        (fun o1 => (DB.writeBlock stdParams o1.st 2 (List.replicate 120 2) 0).toOption.map
          (fun o => (o.posFile, o.posPos)))) = some (0, 116)) := by
  obtain ⟨c, dsz, fsF, hpos, hdisk, hslot, hfit, hview⟩ :=
    writeBlock_ok_spec p st payload 0 true blockHeight timestamp [] out hok
  constructor
  · refine ⟨_, hdisk, hpos, ?_, ?_, ?_⟩
    · refine readBytesF_write_at c (out.posPos - 8) _ _ _ [] (magic4 p)
        (le32enc payload.length ++ payload) (by simp [recordOf]) (by simp) ?_
      exact (magic4_length p).symm
    · refine readBytesF_write_at c (out.posPos - 8) _ _ _ (magic4 p)
        (le32enc payload.length) payload (by simp [recordOf]) ?_
        (le32enc_length _).symm
      rw [magic4_length]
      omega
    · refine readBytesF_write_at c (out.posPos - 8) _ _ _
        (magic4 p ++ le32enc payload.length) payload [] (by simp [recordOf]) ?_ rfl
      simp [magic4_length, le32enc_length]
      omega
  · exact ⟨by decide, by decide⟩

/-- C8 witness: the position law applied to a concrete write. -/
theorem writeBlock_position_is_payload_offset_witness :
    ∃ out, DB.writeBlock stdParams freshState 5 [1, 2] 0 = .ok out ∧
      ∃ dfile, out.st.disk true out.posFile = some dfile ∧
        readBytesF dfile.content out.posPos 2 = [1, 2] := by
  refine ⟨_, rfl, ?_⟩
  obtain ⟨⟨dfile, hd, h8, hm, hl, hp⟩, hconc⟩ :=
    writeBlock_position_is_payload_offset stdParams freshState 5 0 [1, 2] _
      ⟨rfl, rfl⟩ (by decide) (by decide) rfl
  exact ⟨dfile, hd, hp⟩

/-- C9: setIsReindexing is idempotent at the metadata store: when the
in-memory flag already equals the requested value it returns true
having issued no store operations and leaving the state unchanged,
and after any call isReindexing reports the requested value. -/
theorem setIsReindexing_idempotent (db : ReindexDB) (b : Bool) :
    (db.isReindexing = b → DB.setIsReindexing db b = (true, db, [])) ∧
    DB.isReindexing (DB.setIsReindexing db b).2.1 = b := by
  constructor
  · intro h
    simp [DB.setIsReindexing, h]
  · by_cases h : db.isReindexing = b
    · simp [DB.setIsReindexing, DB.isReindexing, h]
    · cases b <;> simp [DB.setIsReindexing, DB.isReindexing, h]

/-- C9 witness: concrete idempotent call. -/
theorem setIsReindexing_idempotent_witness :
    DB.setIsReindexing ⟨true, true⟩ true = (true, ⟨true, true⟩, []) ∧
    DB.isReindexing (DB.setIsReindexing ⟨false, false⟩ true).2.1 = true :=
  ⟨(setIsReindexing_idempotent ⟨true, true⟩ true).1 rfl,
   (setIsReindexing_idempotent ⟨false, false⟩ true).2⟩

/-- C10: each grow notification is a harmless no-op for a file index
that is negative or at or beyond the size of its own data-file table
(the body-file table for fileHasGrown, the undo-file table for
revertFileHasGrown): the state is returned unchanged, regardless of
whether the index is in range of the other table. -/
theorem fileHasGrown_out_of_range_noop (st : DBState) (i : Int) :
    ((i < 0 ∨ (st.blkCache.length : Int) ≤ i) → DBPrivate.fileHasGrown st i = st) ∧
    ((i < 0 ∨ (st.revCache.length : Int) ≤ i) →
      DBPrivate.revertFileHasGrown st i = st) := by
  constructor
  · intro hb
    simp only [DBPrivate.fileHasGrown, if_pos hb]
  · intro hr
    simp only [DBPrivate.revertFileHasGrown, if_pos hr]

/-- C10 witness: a negative index on a concrete state, and, on a state
whose tables have different sizes, an index out of range of one table
while in range of the other. -/
theorem fileHasGrown_out_of_range_noop_witness :
    DBPrivate.fileHasGrown freshState (-1) = freshState ∧
    DBPrivate.revertFileHasGrown freshState (-1) = freshState ∧
    DBPrivate.fileHasGrown asymState 0 = asymState ∧
    DBPrivate.revertFileHasGrown asymState 1 = asymState :=
  ⟨(fileHasGrown_out_of_range_noop freshState (-1)).1 (by decide),
   (fileHasGrown_out_of_range_noop freshState (-1)).2 (by decide),
   (fileHasGrown_out_of_range_noop asymState 0).1 (by decide),
   (fileHasGrown_out_of_range_noop asymState 1).2 (by decide)⟩

/-! Error taxonomy of the read path (C7) -/

/-- C7: the claim says a record whose derived payload length extends
past the mapped size fails with a StorageCorruption error.  The code
computes the record-length check in 32-bit unsigned arithmetic: on a
mapped 10-byte body file whose stored length field holds 2^32 - 8, the
record at position 8 is malformed in exactly the claimed sense (its
derived length runs far past the mapped size), yet position 8 plus the
length wraps to 0, the "block sized bigger than file" throw is
bypassed, and the load reads past the mapped region (undefined
behaviour, the oobRead outcome) instead of raising any
StorageCorruption error. -/
theorem loadBlock_wrap_bypasses_corruption :
    (DBPrivate.mapFile wrapState 0 true).1 = some 10 ∧
    malformedAt stdParams (contentAt wrapState true 0) 10 8 none ∧
    (8 + le32dec (readBytesF (contentAt wrapState true 0) 4 4) + csLenOf none) %
      4294967296 = 0 ∧
    DBPrivate.loadBlock stdParams wrapState 0 8 true none = .error .oobRead ∧
    isStorageCorruption LoadErr.oobRead = false := by
  refine ⟨rfl, ?_, by decide, rfl, rfl⟩
  rw [malformedAt]
  exact Or.inr (Or.inr (Or.inl (by decide)))

/-! The grow-and-remap cycle (C3) -/

theorem getD_set_other (l : List (Option Nat)) (f g : Nat) (v : Option Nat)
    (hg : g ≠ f) : (l.set f v).getD g none = l.getD g none := by
  rcases Nat.lt_or_ge g l.length with h | h
  · rw [List.getD_eq_getElem _ _ (by simpa using h), List.getD_eq_getElem _ _ h]
    exact List.getElem_set_of_ne (by omega) v (by simpa using h)
  · rw [List.getD_eq_default _ _ (by simpa using h), List.getD_eq_default _ _ h]

theorem coherentRole_lookup (cache : List (Option Nat)) (disk : Nat → Option DiskFile)
    (hco : coherentRole cache disk = true) (i sz : Nat)
    (hi : cache.getD i none = some sz) :
    ∃ d, disk i = some d ∧ d.size = sz := by
  have hl : i < cache.length := getD_lt_length _ _ _ hi
  have hall := (List.all_eq_true.mp hco) i (List.mem_range.mpr hl)
  rw [hi] at hall
  cases hd : disk i with
  | none => rw [hd] at hall; exact absurd hall (by simp)
  | some d =>
    rw [hd] at hall
    exact ⟨d, rfl, by simpa using hall⟩

/-- Look a cached mapping up through the coherence invariant. -/
theorem Coherent.lookup (st : DBState) (r : Bool) (hC : Coherent st) (i sz : Nat)
    (hi : (st.cache r).getD i none = some sz) :
    ∃ d, st.disk r i = some d ∧ d.size = sz := by
  obtain ⟨hb, hr⟩ := hC
  cases r
  · exact coherentRole_lookup _ _ hr i sz (by simpa [DBState.cache] using hi)
  · exact coherentRole_lookup _ _ hb i sz (by simpa [DBState.cache] using hi)

/-- The role-dispatched grow notification with an in-range index clears
exactly that slot of the role cache. -/
theorem grown_inrange (st : DBState) (r : Bool) (f : Nat)
    (hf : f < (st.cache r).length) :
    (if r = true then DBPrivate.fileHasGrown st (Int.ofNat f)
      else DBPrivate.revertFileHasGrown st (Int.ofNat f)) =
      st.setCache r ((st.cache r).set f none) := by
  cases r
  · simp [DBState.cache] at hf
    simp only [Bool.false_eq_true, if_false, DBPrivate.revertFileHasGrown]
    rw [if_neg (by simp only [Int.ofNat_eq_natCast]; omega)]
    simp [DBState.setCache, DBState.cache]
  · simp [DBState.cache] at hf
    simp only [if_true, DBPrivate.fileHasGrown]
    rw [if_neg (by simp only [Int.ofNat_eq_natCast]; omega)]
    simp [DBState.setCache, DBState.cache]

/-- The grow notifications never touch the disks. -/
theorem disk_grown (st : DBState) (r : Bool) (i : Int) :
    (if r = true then DBPrivate.fileHasGrown st i
      else DBPrivate.revertFileHasGrown st i).disk = st.disk := by
  funext r2 g
  cases r <;>
    simp only [DBPrivate.fileHasGrown, DBPrivate.revertFileHasGrown, if_true, if_false,
      Bool.false_eq_true] <;>
    split <;> cases r2 <;> rfl

theorem disk_setDisk (st : DBState) (r : Bool) (f : Nat) (d : Option DiskFile)
    (r2 : Bool) (g : Nat) :
    (st.setDisk r f d).disk r2 g = if r2 = r ∧ g = f then d else st.disk r2 g := by
  cases r <;> cases r2 <;>
    simp [DBState.setDisk, DBState.disk] <;>
    split <;> simp_all

/-- resize_file on one file changes no byte content anywhere. -/
theorem contentAt_resizeDisk (st : DBState) (r : Bool) (f ns : Nat) (r2 : Bool)
    (g j : Nat) : contentAt (resizeDisk st r f ns) r2 g j = contentAt st r2 g j := by
  simp only [contentAt, resizeDisk]
  cases hd : st.disk r f with
  | none =>
    rw [disk_setDisk]
    split
    · rename_i h
      rw [h.1, h.2, hd]
      rfl
    · rfl
  | some d =>
    rw [disk_setDisk]
    split
    · rename_i h
      rw [h.1, h.2, hd]
      rfl
    · rfl

/-- The grow-and-remap cycle changes no byte content of any file in
either role: every previously obtained view reads the same bytes over
every range it covered. -/
theorem growCycle_content (p : DBParams) (st : DBState) (f : Nat) (r : Bool) (fs : Nat)
    (r2 : Bool) (g j : Nat) :
    contentAt (growCycle p st f r fs).2 r2 g j = contentAt st r2 g j := by
  simp only [growCycle]
  have h5 : ∀ st4 : DBState,
      contentAt (DBPrivate.mapFile st4 f r).2 r2 g j = contentAt st4 r2 g j := by
    intro st4
    simp only [contentAt, (mapFile_frame st4 f r).1]
  rw [h5]
  have h6 : ∀ st4 : DBState,
      contentAt (if r = true then DBPrivate.fileHasGrown st4 (Int.ofNat f)
        else DBPrivate.revertFileHasGrown st4 (Int.ofNat f)) r2 g j =
        contentAt st4 r2 g j := by
    intro st4
    simp only [contentAt, disk_grown]
  rw [h6, contentAt_resizeDisk]

/-- After the grow-and-remap cycle on an in-range slot, the fresh map
reports exactly the old size plus one role chunk. -/
theorem growCycle_report (p : DBParams) (st : DBState) (f : Nat) (r : Bool) (fs : Nat)
    (hf : f < (st.cache r).length) :
    (growCycle p st f r fs).1 =
      some (fs + (if r = true then p.blkChunk else p.undoChunk)) := by
  simp only [growCycle]
  have hcache : (resizeDisk st r f (fs + (if r = true then p.blkChunk else p.undoChunk))).cache r =
      st.cache r := by
    simp only [resizeDisk]
    cases st.disk r f <;> rw [cache_setDisk]
  obtain ⟨c, hd4⟩ : ∃ c,
      (resizeDisk st r f (fs + (if r = true then p.blkChunk else p.undoChunk))).disk r f =
        some ⟨fs + (if r = true then p.blkChunk else p.undoChunk), c⟩ := by
    simp only [resizeDisk]
    cases hd : st.disk r f
    · exact ⟨_, disk_setDisk_self ..⟩
    · exact ⟨_, disk_setDisk_self ..⟩
  rw [grown_inrange _ r f (by rw [hcache]; exact hf)]
  rw [mapFile_fresh _ f r ⟨fs + (if r = true then p.blkChunk else p.undoChunk), c⟩
    (by rw [cache_setCache]; exact getD_set_self _ _ _ (by rw [hcache]; exact hf))
    (by rw [disk_setCache]; exact hd4)]

/-- Evaluation of writeBlockCore along the grow path: an existing file
mapped at size fs0, with the record not fitting, is grown by exactly
one role chunk, remapped at the new size, and written at the old append
offset; slots and files of other indices are untouched. -/
theorem writeBlockCore_grow (p : DBParams) (st : DBState) (f : Nat) (r : Bool)
    (u : Nat) (payload H : List Nat) (fs0 : Nat) (d : DiskFile)
    (hslot : (st.cache r).getD f none = some fs0)
    (hdisk : st.disk r f = some d) (hdsz : d.size = fs0)
    (hgrow : fs0 < u + payload.length + 8)
    (hfit : u + (recordOf p payload r H).length ≤
      fs0 + (if r = true then p.blkChunk else p.undoChunk)) :
    ∃ st7,
      DBPrivate.writeBlockCore p st f r u payload H =
        .ok (st7, fs0 + (if r = true then p.blkChunk else p.undoChunk)) ∧
      st7.disk r f = some ⟨fs0 + (if r = true then p.blkChunk else p.undoChunk),
        writeBytesF d.content u (recordOf p payload r H)⟩ ∧
      (st7.cache r).getD f none =
        some (fs0 + (if r = true then p.blkChunk else p.undoChunk)) ∧
      (∀ g, g ≠ f → (st7.cache r).getD g none = (st.cache r).getD g none) ∧
      (∀ g, g ≠ f → st7.disk r g = st.disk r g) := by
  have hf : f < (st.cache r).length := getD_lt_length _ _ _ hslot
  set ns := fs0 + (if r = true then p.blkChunk else p.undoChunk) with hns
  have h4 : resizeDisk st r f ns = st.setDisk r f (some ⟨ns, d.content⟩) := by
    simp only [resizeDisk, hdisk]
  set st4 := st.setDisk r f (some ⟨ns, d.content⟩) with hst4
  have hc4 : st4.cache r = st.cache r := cache_setDisk ..
  set st5 := st4.setCache r ((st4.cache r).set f none) with hst5
  have hc5 : (st5.cache r).getD f none = none := by
    rw [hst5, cache_setCache, hc4]
    exact getD_set_self _ _ _ hf
  have hd5 : st5.disk r f = some ⟨ns, d.content⟩ := by
    rw [hst5, disk_setCache, hst4, disk_setDisk_self]
  have hgc : growCycle p st f r fs0 = (some ns, st5.setCache r
      ((resizeCache (st5.cache r) f).set f (some ns))) := by
    simp only [growCycle, ← hns, h4, ← hst4]
    rw [grown_inrange st4 r f (by rw [hc4]; exact hf), ← hst5]
    rw [mapFile_fresh st5 f r ⟨ns, d.content⟩ hc5 hd5]
  set st6 := st5.setCache r ((resizeCache (st5.cache r) f).set f (some ns)) with hst6
  have hd6 : st6.disk r f = some ⟨ns, d.content⟩ := by
    rw [hst6, disk_setCache]
    exact hd5
  have hc6 : (st6.cache r).getD f none = some ns := by
    rw [hst6, cache_setCache]
    exact getD_set_self _ _ _ (resizeCache_length _ _)
  have hcore : DBPrivate.writeBlockCore p st f r u payload H =
      .ok (st6.setDisk r f (some ⟨ns, writeBytesF d.content u (recordOf p payload r H)⟩),
        ns) := by
    simp only [DBPrivate.writeBlockCore, mapFile_cached st f r fs0 hslot, if_pos hgrow,
      hgc]
    rw [if_neg (by omega : ¬ ns < u + (recordOf p payload r H).length)]
    rw [hd6]
    rfl
  refine ⟨_, hcore, ?_, ?_, ?_, ?_⟩
  · rw [disk_setDisk_self]
  · rw [cache_setDisk_getD]
    exact hc6
  · intro g hg
    rw [cache_setDisk_getD, hst6, cache_setCache, getD_set_other _ _ _ _ hg,
      resizeCache_getD, hst5, cache_setCache, getD_set_other _ _ _ _ hg, hc4]
  · intro g hg
    rw [disk_setDisk_other _ _ _ _ _ hg, hst6, disk_setCache, hst5, disk_setCache, hst4,
      disk_setDisk_other _ _ _ _ _ hg]

/-- The writeBlock entry reduces to writeFinish when no roll to a new
file and no file creation happens. -/
theorem writeBlock_eq_finish (p : DBParams) (st : DBState) (payload : List Nat)
    (posFileIn : Nat) (useBlk : Bool) (blockHeight timestamp : Nat)
    (blockHash : List Nat)
    (h1 : ¬ st.vinfoBlockFile.length ≤ st.nLastBlockFile)
    (h2 : ¬ (useBlk = true ∧ p.maxFileSize <
      (st.vinfoBlockFile.getD st.nLastBlockFile default).nSize + payload.length + 8))
    (h3 : ¬ st.vinfoBlockFile.length ≤
      (if useBlk = true then st.nLastBlockFile else posFileIn))
    (h4 : ¬ (useBlk = false ∧
      (st.vinfoBlockFile.getD (if useBlk = true then st.nLastBlockFile else posFileIn)
        default).nUndoSize = 0)) :
    DBPrivate.writeBlock p st payload posFileIn useBlk blockHeight timestamp blockHash =
      DBPrivate.writeFinish p st (if useBlk = true then st.nLastBlockFile else posFileIn)
        useBlk
        (if useBlk = true
          then (st.vinfoBlockFile.getD
            (if useBlk = true then st.nLastBlockFile else posFileIn) default).nSize
          else (st.vinfoBlockFile.getD
            (if useBlk = true then st.nLastBlockFile else posFileIn) default).nUndoSize)
        (st.vinfoBlockFile.getD (if useBlk = true then st.nLastBlockFile else posFileIn)
          default)
        payload blockHeight timestamp blockHash := by
  simp only [DBPrivate.writeBlock, if_neg h1, if_neg h2, Bool.false_eq_true, false_or,
    if_neg h3, if_neg h4]

/-- C3: when a write of N payload bytes would exceed the active file's
currently mapped capacity (used bytes + N + 8 over the mapped size),
exactly one grow-and-remap cycle occurs: the file is extended by
exactly one role-specific chunk, the next mapFile call for that file
index reports the new larger size, the previously obtained view reads
unchanged bytes over every offset below the write position, the
grow-and-remap cycle itself changes no byte of any file, and only the
cached mapping of that one file index is invalidated and replaced. -/
theorem writeBlock_grow_cycle (p : DBParams) (st : DBState) (payload : List Nat)
    (posFileIn : Nat) (useBlk : Bool) (blockHeight timestamp : Nat)
    (blockHash : List Nat) (fs0 posFile used : Nat) (out : WriteOut)
    (hC : Coherent st)
    (hposFile : posFile = if useBlk = true then st.nLastBlockFile else posFileIn)
    (hused : used = if useBlk = true
      then (st.vinfoBlockFile.getD posFile default).nSize
      else (st.vinfoBlockFile.getD posFile default).nUndoSize)
    (hroll1 : st.nLastBlockFile < st.vinfoBlockFile.length)
    (hroll2 : useBlk = true →
      (st.vinfoBlockFile.getD st.nLastBlockFile default).nSize + payload.length + 8 ≤
        p.maxFileSize)
    (hpf : posFile < st.vinfoBlockFile.length)
    (hcreate : useBlk = false →
      (st.vinfoBlockFile.getD posFile default).nUndoSize ≠ 0)
    (hslot : (st.cache useBlk).getD posFile none = some fs0)
    (hgrow : fs0 < used + payload.length + 8)
    (hfit : used + (recordOf p payload useBlk blockHash).length ≤
      fs0 + (if useBlk = true then p.blkChunk else p.undoChunk))
    (hok : DBPrivate.writeBlock p st payload posFileIn useBlk blockHeight timestamp
      blockHash = .ok out) :
    out.posFile = posFile ∧
    (∃ d1, out.st.disk useBlk posFile = some d1 ∧
      d1.size = fs0 + (if useBlk = true then p.blkChunk else p.undoChunk) ∧
      ∀ j, j < used → d1.content j = contentAt st useBlk posFile j) ∧
    DBPrivate.mapFile out.st posFile useBlk =
      (some (fs0 + (if useBlk = true then p.blkChunk else p.undoChunk)), out.st) ∧
    (∀ g, g ≠ posFile →
      (out.st.cache useBlk).getD g none = (st.cache useBlk).getD g none) ∧
    (∀ st2 f2 r2 fs2 r3 g j,
      contentAt (growCycle p st2 f2 r2 fs2).2 r3 g j = contentAt st2 r3 g j) ∧
    (∀ st2 f2 r2 fs2, f2 < (st2.cache r2).length →
      (growCycle p st2 f2 r2 fs2).1 =
        some (fs2 + (if r2 = true then p.blkChunk else p.undoChunk))) := by
  subst hposFile
  subst hused
  obtain ⟨d, hdisk, hdsz⟩ := Coherent.lookup st useBlk hC _ _ hslot
  rw [writeBlock_eq_finish p st payload posFileIn useBlk blockHeight timestamp blockHash
    (by omega)
    (by rintro ⟨hb, hlt⟩; have := hroll2 hb; omega)
    (by omega)
    (by rintro ⟨hb, h0⟩; exact hcreate hb h0)] at hok
  simp only [DBPrivate.writeFinish] at hok
  obtain ⟨st7, hcore, hd7, hc7, hcg, hdg⟩ := writeBlockCore_grow p st
    (if useBlk = true then st.nLastBlockFile else posFileIn) useBlk
    (if useBlk = true
      then (st.vinfoBlockFile.getD
        (if useBlk = true then st.nLastBlockFile else posFileIn) default).nSize
      else (st.vinfoBlockFile.getD
        (if useBlk = true then st.nLastBlockFile else posFileIn) default).nUndoSize)
    payload blockHash fs0 d hslot hdisk hdsz hgrow hfit
  rw [hcore] at hok
  injection hok with hout
  subst hout
  refine ⟨rfl, ⟨⟨fs0 + (if useBlk = true then p.blkChunk else p.undoChunk),
    writeBytesF d.content (if useBlk = true
      then (st.vinfoBlockFile.getD
        (if useBlk = true then st.nLastBlockFile else posFileIn) default).nSize
      else (st.vinfoBlockFile.getD
        (if useBlk = true then st.nLastBlockFile else posFileIn) default).nUndoSize)
      (recordOf p payload useBlk blockHash)⟩, ?_, rfl, ?_⟩, ?_, ?_, ?_, ?_⟩
  · rw [disk_setInfoDirty]
    exact hd7
  · intro j hj
    simp only [contentAt, hdisk, Option.getD_some]
    exact writeBytesF_outside d.content _ _ j (Or.inl hj)
  · exact mapFile_cached _ _ _ _ (by rw [cache_setInfoDirty]; exact hc7)
  · intro g hg
    rw [cache_setInfoDirty]
    exact hcg g hg
  · exact fun st2 f2 r2 fs2 r3 g j => growCycle_content p st2 f2 r2 fs2 r3 g j
  · exact fun st2 f2 r2 fs2 hf2 => growCycle_report p st2 f2 r2 fs2 hf2

/-- C3 witness: a 50-byte write into a 120-byte file already holding
100 bytes grows it by exactly one block chunk, and the next mapFile
reports the new size. -/
theorem writeBlock_grow_cycle_witness :
    ∃ out, DBPrivate.writeBlock stdParams grownState (List.replicate 50 3) 0 true 7 0 []
        = .ok out ∧
      DBPrivate.mapFile out.st 0 true = (some (120 + 16777216), out.st) := by
  obtain ⟨o, ho⟩ : ∃ o, DBPrivate.writeBlock stdParams grownState (List.replicate 50 3)
      0 true 7 0 [] = .ok o := ⟨_, rfl⟩
  obtain ⟨hpf2, hd1, hmap, hsl, hG1, hG2⟩ :=
    writeBlock_grow_cycle stdParams grownState (List.replicate 50 3) 0 true 7 0 []
      120 0 100 o ⟨rfl, rfl⟩ (by decide) (by decide) (by decide) (by decide) (by decide)
      (by decide) (by decide) (by decide) (by decide) ho
  exact ⟨o, ho, hmap⟩


/-! Header-chain claims (C4, C5, C6) -/

theorem entry_linear (k : Nat) (w : Nat → Nat) (i : Nat) (hi : i ≤ k) :
    entryAt (linearStore k w) i =
      ⟨if i = 0 then none else some (i - 1), i, w i, false⟩ := by
  simp only [entryAt, linearStore]
  rw [List.getD_eq_getElem _ _ (by simp only [List.length_map, List.length_range]; omega)]
  simp

theorem pathTo_linear (k : Nat) (w : Nat → Nat) : ∀ i, i ≤ k →
    pathTo (linearStore k w) (i + 1) i = List.range (i + 1) := by
  intro i
  induction i with
  | zero =>
    intro _
    rw [pathTo, entry_linear k w 0 (by omega)]
    rfl
  | succ n ih =>
    intro hn
    rw [pathTo, entry_linear k w (n + 1) hn]
    simp only [if_neg (by omega : ¬ (n + 1 = 0)), Nat.add_sub_cancel]
    rw [ih (by omega), ← List.range_succ]

theorem walkDown_linear_step (k : Nat) (w : Nat → Nat) (j : Nat) (hj : j + 1 ≤ k) :
    walkDown (linearStore k w) (j + 1 + 1) (j + 1) j = some j := by
  rw [walkDown, entry_linear k w (j + 1) hj]
  simp only [if_pos (by omega : j < j + 1), if_neg (by omega : ¬ (j + 1 = 0)),
    Nat.add_sub_cancel]
  rw [walkDown, entry_linear k w j (by omega)]
  simp only [if_neg (by omega : ¬ j < j)]

/-- The first appendHeader on an empty tracker adds the block as the
sole branch and rebuilds the chain from genesis. -/
theorem appendHeader_linear_first (k : Nat) (w : Nat → Nat) (hk : 1 ≤ k) :
    DB.appendHeader (linearStore k w) ⟨[], []⟩ 1 = some (true, ⟨[0, 1], [1]⟩) := by
  rw [DB.appendHeader, entry_linear k w 1 hk]
  simp only [firstWalkMatch, firstAncestorMatch]
  rw [if_neg (by simp)]
  simp only [List.nil_append, List.isEmpty_nil, if_true, Bool.false_eq_true, if_false,
    ite_false, ite_true]
  rw [setTip, entry_linear k w 1 hk]
  simp only [pathTo_linear k w 1 hk]
  rfl

/-- Each further appendHeader on the linear chain extends the single
tracked tip and the canonical chain. -/
theorem appendHeader_linear_step (k : Nat) (w : Nat → Nat) (j : Nat) (hj1 : 1 ≤ j)
    (hjk : j + 1 ≤ k) :
    DB.appendHeader (linearStore k w) ⟨List.range (j + 1), [j]⟩ (j + 1) =
      some (true, ⟨List.range (j + 1 + 1), [j + 1]⟩) := by
  have hfwm : firstWalkMatch (linearStore k w) (j + 1) [] [j] = some (j, []) := by
    simp only [firstWalkMatch, entry_linear k w (j + 1) hjk,
      entry_linear k w j (by omega)]
    rw [if_pos (walkDown_linear_step k w j hjk)]
    simp
  have hlast : (List.range (j + 1)).getLast? = some j := by
    rw [List.range_succ]
    exact List.getLast?_concat _
  rw [DB.appendHeader, entry_linear k w (j + 1) hjk]
  simp only [hfwm]
  rw [if_neg (by simp)]
  simp only [Bool.false_eq_true, ite_false, List.nil_append, hlast, if_pos rfl]
  rw [setTip, entry_linear k w (j + 1) hjk]
  simp only [pathTo_linear k w (j + 1) hjk]
  simp

theorem appendAll_append (s : Store) (st : HeaderState) (l1 l2 : List Nat) :
    appendAll s st (l1 ++ l2) =
      match appendAll s st l1 with
      | none => none
      | some (n, st2) =>
        match appendAll s st2 l2 with
        | none => none
        | some (m, st3) => some (n + m, st3) := by
  induction l1 generalizing st with
  | nil =>
    simp only [List.nil_append, appendAll]
    cases h : appendAll s st l2 with
    | none => rfl
    | some r => simp
  | cons b bs ih =>
    simp only [List.cons_append, appendAll]
    cases DB.appendHeader s st b with
    | none => rfl
    | some r =>
      obtain ⟨rb, st2⟩ := r
      simp only [List.append_eq, ih]
      cases h1 : appendAll s st2 bs with
      | none => rfl
      | some r2 =>
        obtain ⟨n, st3⟩ := r2
        cases h2 : appendAll s st3 l2 with
        | none => simp [h2]
        | some r3 =>
          obtain ⟨m, st4⟩ := r3
          simp [h2, Nat.add_assoc]

theorem appendAll_linear (k : Nat) (w : Nat → Nat) : ∀ j, 1 ≤ j → j ≤ k →
    appendAll (linearStore k w) ⟨[], []⟩ (List.range' 1 j) =
      some (j, ⟨List.range (j + 1), [j]⟩) := by
  intro j
  induction j with
  | zero => omega
  | succ n ih =>
    intro h1 hk
    rcases Nat.eq_zero_or_pos n with hn | hn
    · subst hn
      show appendAll (linearStore k w) ⟨[], []⟩ [1] = _
      simp only [appendAll, appendHeader_linear_first k w hk]
      rfl
    · have hrange : List.range' 1 (n + 1) = List.range' 1 n ++ [1 + n] :=
        List.range'_1_concat 1 n
      rw [hrange, appendAll_append, ih hn (by omega)]
      have h1n : 1 + n = n + 1 := by omega
      rw [h1n]
      show (match appendAll (linearStore k w) ⟨List.range (n + 1), [n]⟩ [n + 1] with
        | none => none
        | some (m, st3) => some (n + m, st3)) = _
      simp only [appendAll, appendHeader_linear_step k w n hn hk]
      simp

/-- C4: appending a chain of K valid blocks each built on the previous
one, starting on genesis, reports a canonical-tip change on every one
of the K calls, and leaves the chain with length K + 1 including
genesis, indexed contiguously by height, with the final block as the
tip. -/
theorem appendHeader_linear_chain (K : Nat) (w : Nat → Nat) (hK : 1 ≤ K) :
    ∃ fin : HeaderState,
      appendAll (linearStore K w) ⟨[], []⟩ (List.range' 1 K) = some (K, fin) ∧
      fin.headersChain.length = K + 1 ∧
      (∀ h, h ≤ K → fin.headersChain[h]? = some h ∧
        (entryAt (linearStore K w) h).nHeight = h) ∧
      fin.headersChain.getLast? = some K := by
  refine ⟨⟨List.range (K + 1), [K]⟩, appendAll_linear K w K hK (le_refl K), by simp,
    ?_, ?_⟩
  · intro h hh
    constructor
    · exact List.getElem?_range (by omega)
    · rw [entry_linear K w h hh]
  · rw [List.range_succ]
    exact List.getLast?_concat _

/-- C4 witness: three blocks on genesis. -/
theorem appendHeader_linear_chain_witness :
    ∃ fin : HeaderState,
      appendAll (linearStore 3 (fun i => i)) ⟨[], []⟩ (List.range' 1 3) =
        some (3, fin) ∧
      fin.headersChain.length = 4 := by
  obtain ⟨fin, h1, h2, _, _⟩ := appendHeader_linear_chain 3 (fun i => i) (by omega)
  exact ⟨fin, h1, h2⟩

/-- C5 (amended): appendHeader switches the canonical chain to the
appended block exactly when its cumulative work strictly exceeds the
work of the current canonical tip: after appending the first branch and
then the sibling, the later sibling becomes canonical iff it has
strictly greater work, and the first-seen tip is kept on equal works. -/
theorem appendHeader_fork_choice (wg wa wb : Nat) :
    appendAll (forkStore wg wa wb) ⟨[], []⟩ [1] = some (1, ⟨[0, 1], [1]⟩) ∧
    (wa < wb →
      DB.appendHeader (forkStore wg wa wb) ⟨[0, 1], [1]⟩ 2 =
        some (true, ⟨[0, 2], [1, 2]⟩)) ∧
    (wb ≤ wa →
      DB.appendHeader (forkStore wg wa wb) ⟨[0, 1], [1]⟩ 2 =
        some (false, ⟨[0, 1], [1, 2]⟩)) := by
  refine ⟨rfl, ?_, ?_⟩
  · intro hab
    show (if (entryAt (forkStore wg wa wb) 1).nChainWork <
        (entryAt (forkStore wg wa wb) 2).nChainWork
      then some (true, setTip (forkStore wg wa wb) ⟨[0, 1], [1, 2]⟩ 2)
      else some (false, ⟨[0, 1], [1, 2]⟩)) = some (true, ⟨[0, 2], [1, 2]⟩)
    rw [if_pos (show (entryAt (forkStore wg wa wb) 1).nChainWork <
      (entryAt (forkStore wg wa wb) 2).nChainWork from hab)]
    rfl
  · intro hba
    show (if (entryAt (forkStore wg wa wb) 1).nChainWork <
        (entryAt (forkStore wg wa wb) 2).nChainWork
      then some (true, setTip (forkStore wg wa wb) ⟨[0, 1], [1, 2]⟩ 2)
      else some (false, ⟨[0, 1], [1, 2]⟩)) = some (false, ⟨[0, 1], [1, 2]⟩)
    rw [if_neg (show ¬ (entryAt (forkStore wg wa wb) 1).nChainWork <
      (entryAt (forkStore wg wa wb) 2).nChainWork from not_lt.mpr hba)]

/-- C5 witness: the fork rule at concrete works 5 against 7 and the tie
at 5 against 5. -/
theorem appendHeader_fork_choice_witness :
    DB.appendHeader (forkStore 1 5 7) ⟨[0, 1], [1]⟩ 2 =
      some (true, ⟨[0, 2], [1, 2]⟩) ∧
    DB.appendHeader (forkStore 1 5 5) ⟨[0, 1], [1]⟩ 2 =
      some (false, ⟨[0, 1], [1, 2]⟩) :=
  ⟨(appendHeader_fork_choice 1 5 7).2.1 (by omega),
   (appendHeader_fork_choice 1 5 5).2.2 (by omega)⟩

/-- C5 counterexample: after appending A1, A2, B1 and then the
now-invalid A1, the canonical chain is truncated to genesis (work 10)
and the call reports a change, while tracked tip B1 holds the strictly
greatest cumulative work (15) and differs from the canonical tip: the
canonical chain is not switched to the greatest-work branch. -/
theorem appendHeader_maxwork_counterexample :
    appendAll cexStoreA ⟨[], []⟩ [1, 2, 3] = some (2, ⟨[0, 1, 2], [2, 3]⟩) ∧
    DB.appendHeader cexStoreB ⟨[0, 1, 2], [2, 3]⟩ 1 = some (true, ⟨[0], [3, 0]⟩) ∧
    (3 ∈ ([3, 0] : List Nat)) ∧
    (∀ t ∈ ([3, 0] : List Nat),
      (entryAt cexStoreB t).nChainWork ≤ (entryAt cexStoreB 3).nChainWork) ∧
    ([0] : List Nat).getLast? = some 0 ∧
    (entryAt cexStoreB 0).nChainWork < (entryAt cexStoreB 3).nChainWork ∧
    (0 : Nat) ≠ 3 := by
  exact ⟨by decide, by decide, by decide, by decide, by decide, by decide, by decide⟩

/-- C6: after building the two branches, appending the failed block B2*
(parent B1, work 25 exceeding the canonical tip A1 at work 20) makes
the final cumulative-work comparison promote the failed block itself:
appendHeader returns true and the canonical chain becomes
genesis, B1, B2* with the failed entry as its tip, violating the
invariant that a failed entry never enters the chain. -/
theorem appendHeader_promotes_failed_block :
    appendAll bugStoreA ⟨[], []⟩ [1, 2, 3] = some (1, ⟨[0, 1], [1, 3]⟩) ∧
    DB.appendHeader bugStoreB ⟨[0, 1], [1, 3]⟩ 4 = some (true, ⟨[0, 2, 4], [1, 3]⟩) ∧
    (entryAt bugStoreB 4).failed = true ∧
    (4 ∈ ([0, 2, 4] : List Nat)) ∧
    ([0, 2, 4] : List Nat).getLast? = some 4 := by
  exact ⟨by decide, by decide, rfl, by decide, by decide⟩


end Blocks
